import Mathlib

/-!
Shallow embedding of `polars_config_meta` (file `src/polars_config_meta/__init__.py`):
a plugin that attaches in-memory metadata to Polars DataFrames through an
identity-keyed registry (`ConfigMetaPlugin._df_id_to_meta` / `_df_id_to_ref`),
forwards arbitrary DataFrame operations through `__getattr__` while copying
metadata onto DataFrame-valued results, and persists metadata through the
Parquet schema-metadata slot under the fixed key `"polars_plugin_meta"`.

Python dictionaries are modelled as insertion-ordered association lists with
CPython semantics: `d[k] = v` overwrites in place (position preserved) or
appends, and `d.update(o)` folds that assignment over `o` in order.  JSON
values are modelled by the inductive `JValue` (numbers restricted to integers,
which covers every value the claims mention); the external `json` codec is
modelled at token level by a genuine serializer (`encodeVal`) and parser
(`parseValF`), with the round trip proved, not assumed.
-/

/-- JSON values (`null`, `bool`, number, string, array, object), as produced
and consumed by `json.dumps` / `json.loads` on plugin metadata.  Numbers are
modelled as integers. -/
inductive JValue where
  | null : JValue
  | bool (b : Bool) : JValue
  | num (n : Int) : JValue
  | str (s : String) : JValue
  | arr (vs : List JValue) : JValue
  | obj (kvs : List (String × JValue)) : JValue

mutual

/-- Decidable equality on JSON values (the `deriving` handler does not cover
the nested `List` occurrences, so it is spelled out). -/
def JValue.decEq : (a b : JValue) → Decidable (a = b)
  | JValue.null, JValue.null => isTrue rfl
  | JValue.null, JValue.bool _ | JValue.null, JValue.num _ | JValue.null, JValue.str _
  | JValue.null, JValue.arr _ | JValue.null, JValue.obj _ =>
      isFalse (fun h => JValue.noConfusion h)
  | JValue.bool _, JValue.null | JValue.bool _, JValue.num _ | JValue.bool _, JValue.str _
  | JValue.bool _, JValue.arr _ | JValue.bool _, JValue.obj _ =>
      isFalse (fun h => JValue.noConfusion h)
  | JValue.num _, JValue.null | JValue.num _, JValue.bool _ | JValue.num _, JValue.str _
  | JValue.num _, JValue.arr _ | JValue.num _, JValue.obj _ =>
      isFalse (fun h => JValue.noConfusion h)
  | JValue.str _, JValue.null | JValue.str _, JValue.bool _ | JValue.str _, JValue.num _
  | JValue.str _, JValue.arr _ | JValue.str _, JValue.obj _ =>
      isFalse (fun h => JValue.noConfusion h)
  | JValue.arr _, JValue.null | JValue.arr _, JValue.bool _ | JValue.arr _, JValue.num _
  | JValue.arr _, JValue.str _ | JValue.arr _, JValue.obj _ =>
      isFalse (fun h => JValue.noConfusion h)
  | JValue.obj _, JValue.null | JValue.obj _, JValue.bool _ | JValue.obj _, JValue.num _
  | JValue.obj _, JValue.str _ | JValue.obj _, JValue.arr _ =>
      isFalse (fun h => JValue.noConfusion h)
  | JValue.bool a, JValue.bool b =>
      if h : a = b then isTrue (by rw [h]) else isFalse (by intro hh; injection hh; contradiction)
  | JValue.num a, JValue.num b =>
      if h : a = b then isTrue (by rw [h]) else isFalse (by intro hh; injection hh; contradiction)
  | JValue.str a, JValue.str b =>
      if h : a = b then isTrue (by rw [h]) else isFalse (by intro hh; injection hh; contradiction)
  | JValue.arr a, JValue.arr b =>
      match JValue.decEqList a b with
      | isTrue h => isTrue (by rw [h])
      | isFalse h => isFalse (by intro hh; injection hh; contradiction)
  | JValue.obj a, JValue.obj b =>
      match JValue.decEqObj a b with
      | isTrue h => isTrue (by rw [h])
      | isFalse h => isFalse (by intro hh; injection hh; contradiction)

/-- Decidable equality on JSON arrays. -/
def JValue.decEqList : (a b : List JValue) → Decidable (a = b)
  | [], [] => isTrue rfl
  | [], _ :: _ => isFalse (fun h => List.noConfusion h)
  | _ :: _, [] => isFalse (fun h => List.noConfusion h)
  | v :: vs, w :: ws =>
      match JValue.decEq v w, JValue.decEqList vs ws with
      | isTrue h1, isTrue h2 => isTrue (by rw [h1, h2])
      | isFalse h1, _ => isFalse (by intro hh; injection hh; contradiction)
      | isTrue _, isFalse h2 => isFalse (by intro hh; injection hh; contradiction)

/-- Decidable equality on JSON object member lists. -/
def JValue.decEqObj : (a b : List (String × JValue)) → Decidable (a = b)
  | [], [] => isTrue rfl
  | [], _ :: _ => isFalse (fun h => List.noConfusion h)
  | _ :: _, [] => isFalse (fun h => List.noConfusion h)
  | (k, v) :: vs, (l, w) :: ws =>
      match String.decEq k l, JValue.decEq v w, JValue.decEqObj vs ws with
      | isTrue h0, isTrue h1, isTrue h2 => isTrue (by rw [h0, h1, h2])
      | isFalse h0, _, _ =>
          isFalse (by intro hh; injection hh with hp hrest; injection hp; contradiction)
      | isTrue _, isFalse h1, _ =>
          isFalse (by intro hh; injection hh with hp hrest; injection hp; contradiction)
      | isTrue _, isTrue _, isFalse h2 => isFalse (by intro hh; injection hh; contradiction)

end

instance : DecidableEq JValue := JValue.decEq

/-- A metadata mapping: a Python `dict` with string keys and JSON values,
kept as an insertion-ordered association list. -/
abbrev Meta := List (String × JValue)

/-- CPython `d[k] = v`: if `k` is already a key, overwrite its value in place
(keeping the original key object and position); otherwise append `(k, v)`. -/
def dictSet {α β : Type} [BEq α] (d : List (α × β)) (k : α) (v : β) : List (α × β) :=
  if d.any (fun p => p.1 == k) then
    d.map (fun p => if p.1 == k then (p.1, v) else p)
  else
    d ++ [(k, v)]

/-- CPython `d.update(other)`: assign each key/value pair of `other`, in
order, into `d`.  On a key collision the value coming from `other` wins. -/
def dictUpdate {α β : Type} [BEq α] (d other : List (α × β)) : List (α × β) :=
  other.foldl (fun acc p => dictSet acc p.1 p.2) d

/-- The process-wide registry state held in the class-level dictionaries of
`ConfigMetaPlugin`: `meta` models `_df_id_to_meta` (DataFrame `id()` to
metadata dict) and `refs` models `_df_id_to_ref` (DataFrame `id()` to the
`weakref.ref` object, identified here by a token drawn from `nextRef`). -/
structure Registry where
  meta : List (Nat × Meta)
  refs : List (Nat × Nat)
  nextRef : Nat
deriving DecidableEq

/-- The empty registry: both class-level dictionaries start out `{}`. -/
def Registry.empty : Registry := ⟨[], [], 0⟩

/-- `id(df) in ConfigMetaPlugin._df_id_to_meta`: the membership test used by
`__init__` to decide whether the instance is already registered. -/
def isRegistered (st : Registry) (dfId : Nat) : Bool :=
  st.meta.any (fun p => p.1 == dfId)

/-- `self._df_id_to_meta[self._df_id]` read through `.get(..., {})`: the
metadata mapping registered for an identity, empty when unregistered. -/
def getMeta (st : Registry) (dfId : Nat) : Meta :=
  (List.lookup dfId st.meta).getD []

/-- In-place `self._df_id_to_meta[dfId].update(m)`: replaces the registered
metadata dict of `dfId` by its `dict.update` with `m`; other entries and the
weakref dict are untouched.  (When `dfId` is unregistered the Python code
would raise `KeyError` before mutating anything, so the registry is likewise
unchanged here.) -/
def metaUpdate (st : Registry) (dfId : Nat) (m : Meta) : Registry :=
  { st with meta := st.meta.map (fun p => if p.1 == dfId then (p.1, dictUpdate p.2 m) else p) }

namespace ConfigMetaPlugin

/-- `ConfigMetaPlugin.__init__`: if `id(df)` is not yet a key of
`_df_id_to_meta`, install an empty metadata dict and a fresh
`weakref.ref(df, cls._cleanup)` (a fresh token from `nextRef`); otherwise do
nothing. -/
def init (st : Registry) (dfId : Nat) : Registry :=
  if isRegistered st dfId then st
  else
    { meta := st.meta ++ [(dfId, [])]
      refs := st.refs ++ [(dfId, st.nextRef)]
      nextRef := st.nextRef + 1 }

/-- `ConfigMetaPlugin.set(**kwargs)` and `ConfigMetaPlugin.update(mapping)`:
both reduce to `self._df_id_to_meta[self._df_id].update(...)`. -/
def set (st : Registry) (dfId : Nat) (kwargs : Meta) : Registry :=
  metaUpdate st dfId kwargs

/-- `ConfigMetaPlugin.merge(*dfs)`: for each other DataFrame in argument
order, ensure it is registered (`ConfigMetaPlugin(other_df)`), then update the
bound instance's metadata dict with the other instance's
(`self._df_id_to_meta[self._df_id].update(self._df_id_to_meta.get(other_id, {}))`). -/
def merge (st : Registry) (boundId : Nat) (others : List Nat) : Registry :=
  others.foldl
    (fun s otherId =>
      let s1 := init s otherId
      metaUpdate s1 boundId (getMeta s1 otherId))
    st

/-- `ConfigMetaPlugin._cleanup(df_weakref)`: scan `_df_id_to_ref` in insertion
order for the entry whose weakref is identical to the callback argument, and
pop that identity from both dictionaries (`pop(to_remove, None)`, a no-op on
an absent key). -/
def cleanup (st : Registry) (wref : Nat) : Registry :=
  match st.refs.find? (fun p => p.2 == wref) with
  | none => st
  | some p =>
      { st with
        refs := st.refs.filter (fun q => !(q.1 == p.1))
        meta := st.meta.filter (fun q => !(q.1 == p.1)) }

end ConfigMetaPlugin

/-- Non-DataFrame Python values that can flow through the proxy (plain
attribute passthrough or non-propagating call results), e.g. `df.shape`. -/
inductive PyData where
  | int (n : Int) : PyData
  | text (s : String) : PyData
  | pair (a b : Nat) : PyData
deriving DecidableEq

/-- What `getattr(self._df, name, None)` can observe when the attribute is
present: the value `None`, a non-callable value, or a callable method. -/
inductive AttrVal where
  | vnone : AttrVal
  | value (v : PyData) : AttrVal
  | callableAttr : AttrVal
deriving DecidableEq

/-- The underlying Polars DataFrame, at the interface the plugin consumes:
its identity (`id(df)`) and its attribute surface. `attrs name = none` means
the DataFrame has no attribute `name`; `some AttrVal.vnone` means the
attribute exists but its value is the Python `None`. -/
structure DataFrame where
  id : Nat
  attrs : String → Option AttrVal

/-- Outcome of resolving an attribute name on the `df.config_meta` proxy. -/
inductive ResolveResult where
  | pluginMember (name : String) : ResolveResult
  | persistWriter : ResolveResult
  | attrError (msg : String) : ResolveResult
  | plainAttr (v : PyData) : ResolveResult
  | boundWrapper (name : String) : ResolveResult
deriving DecidableEq

/-- The names defined on the `ConfigMetaPlugin` class or instance itself;
Python only invokes `__getattr__` for names outside this set. -/
def pluginAttrs : List String :=
  ["_df", "_df_id", "_df_id_to_meta", "_df_id_to_ref",
   "set", "update", "merge", "get_metadata", "_write_parquet_plugin", "_cleanup"]

/-- `ConfigMetaPlugin.__getattr__(name)`: special-case `"write_parquet"` to
the plugin writer; otherwise `getattr(self._df, name, None)` — if that is
`None` (absent attribute or present-but-`None`), raise
`AttributeError(f"Polars DataFrame has no attribute \x27{name}\x27")`;
a present non-callable value is returned as-is; a callable is wrapped. -/
def configMetaGetattr (df : DataFrame) (name : String) : ResolveResult :=
  if name == "write_parquet" then ResolveResult.persistWriter
  else
    match (df.attrs name).getD AttrVal.vnone with
    | AttrVal.vnone =>
        ResolveResult.attrError ("Polars DataFrame has no attribute \x27" ++ name ++ "\x27")
    | AttrVal.value v => ResolveResult.plainAttr v
    | AttrVal.callableAttr => ResolveResult.boundWrapper name

/-- Full attribute resolution on the proxy: names defined on the plugin class
resolve there; everything else falls to `__getattr__`. -/
def proxyResolve (df : DataFrame) (name : String) : ResolveResult :=
  if name ∈ pluginAttrs then ResolveResult.pluginMember name
  else configMetaGetattr df name

/-- Result of calling a forwarded DataFrame method: either a DataFrame
(identified by its `id()`) or a non-DataFrame value. -/
inductive CallResult where
  | frame (resultId : Nat) : CallResult
  | other (v : PyData) : CallResult
deriving DecidableEq

/-- The `wrapper` closure built by `__getattr__` around a callable DataFrame
attribute, applied to the result the underlying call produced: when the
result is a DataFrame, ensure it is registered (`ConfigMetaPlugin(result)`)
and run `self._df_id_to_meta[id(result)].update(self._df_id_to_meta[self._df_id])`;
any other result passes through untouched. -/
def wrapperStep (st : Registry) (boundId : Nat) (res : CallResult) : Registry × CallResult :=
  match res with
  | CallResult.frame rid =>
      let s1 := ConfigMetaPlugin.init st rid
      (metaUpdate s1 rid (getMeta s1 boundId), res)
  | CallResult.other _ => (st, res)

/-- Tokens of the JSON texts exchanged with the external `json` codec; a
byte blob in the schema-metadata map is modelled as a token list. -/
inductive Tok where
  | lbrace : Tok
  | rbrace : Tok
  | lbrack : Tok
  | rbrack : Tok
  | colon : Tok
  | comma : Tok
  | tnull : Tok
  | tbool (b : Bool) : Tok
  | tnum (n : Int) : Tok
  | tstr (s : String) : Tok
deriving DecidableEq

mutual

/-- `json.dumps` on a JSON value, at token level: `null`/`true`/`false`,
numbers and strings are single tokens; arrays are `[ v ( , v )* ]` and
objects `{ k : v ( , k : v )* }`. -/
def encodeVal : JValue → List Tok
  | JValue.null => [Tok.tnull]
  | JValue.bool b => [Tok.tbool b]
  | JValue.num n => [Tok.tnum n]
  | JValue.str s => [Tok.tstr s]
  | JValue.arr [] => [Tok.lbrack, Tok.rbrack]
  | JValue.arr (v :: vs) => Tok.lbrack :: encodeVal v ++ encodeArrTail vs
  | JValue.obj [] => [Tok.lbrace, Tok.rbrace]
  | JValue.obj ((k, v) :: kvs) =>
      Tok.lbrace :: Tok.tstr k :: Tok.colon :: encodeVal v ++ encodeObjTail kvs

/-- The encoding of the remaining elements of a non-empty array, from the
separator after the previous element up to the closing bracket. -/
def encodeArrTail : List JValue → List Tok
  | [] => [Tok.rbrack]
  | v :: vs => Tok.comma :: encodeVal v ++ encodeArrTail vs

/-- The encoding of the remaining members of a non-empty object, from the
separator after the previous member up to the closing brace. -/
def encodeObjTail : List (String × JValue) → List Tok
  | [] => [Tok.rbrace]
  | (k, v) :: kvs => Tok.comma :: Tok.tstr k :: Tok.colon :: encodeVal v ++ encodeObjTail kvs

end

mutual

/-- Fuelled JSON parser for one value; returns the value and the unconsumed
remainder.  One unit of fuel is spent per parsing step, so any fuel at least
the token count of the input suffices. -/
def parseValF : Nat → List Tok → Option (JValue × List Tok)
  | 0, _ => none
  | fuel + 1, ts =>
    match ts with
    | Tok.tnull :: ts1 => some (JValue.null, ts1)
    | Tok.tbool b :: ts1 => some (JValue.bool b, ts1)
    | Tok.tnum n :: ts1 => some (JValue.num n, ts1)
    | Tok.tstr s :: ts1 => some (JValue.str s, ts1)
    | Tok.lbrack :: Tok.rbrack :: ts1 => some (JValue.arr [], ts1)
    | Tok.lbrack :: ts1 =>
      match parseValF fuel ts1 with
      | none => none
      | some (v, ts2) =>
        match parseArrTailF fuel ts2 with
        | none => none
        | some (vs, ts3) => some (JValue.arr (v :: vs), ts3)
    | Tok.lbrace :: Tok.rbrace :: ts1 => some (JValue.obj [], ts1)
    | Tok.lbrace :: Tok.tstr k :: Tok.colon :: ts1 =>
      match parseValF fuel ts1 with
      | none => none
      | some (v, ts2) =>
        match parseObjTailF fuel ts2 with
        | none => none
        | some (kvs, ts3) => some (JValue.obj ((k, v) :: kvs), ts3)
    | _ => none

/-- Fuelled parser for the tail of an array: either the closing bracket, or a
separator followed by a further element and the rest of the tail. -/
def parseArrTailF : Nat → List Tok → Option (List JValue × List Tok)
  | 0, _ => none
  | fuel + 1, ts =>
    match ts with
    | Tok.rbrack :: ts1 => some ([], ts1)
    | Tok.comma :: ts1 =>
      match parseValF fuel ts1 with
      | none => none
      | some (v, ts2) =>
        match parseArrTailF fuel ts2 with
        | none => none
        | some (vs, ts3) => some (v :: vs, ts3)
    | _ => none

/-- Fuelled parser for the tail of an object: either the closing brace, or a
separator followed by a further `key : value` member and the rest. -/
def parseObjTailF : Nat → List Tok → Option (List (String × JValue) × List Tok)
  | 0, _ => none
  | fuel + 1, ts =>
    match ts with
    | Tok.rbrace :: ts1 => some ([], ts1)
    | Tok.comma :: Tok.tstr k :: Tok.colon :: ts1 =>
      match parseValF fuel ts1 with
      | none => none
      | some (v, ts2) =>
        match parseObjTailF fuel ts2 with
        | none => none
        | some (kvs, ts3) => some ((k, v) :: kvs, ts3)
    | _ => none

end

mutual

/-- Number of parsing steps needed to consume the encoding of a value. -/
def costVal : JValue → Nat
  | JValue.null => 1
  | JValue.bool _ => 1
  | JValue.num _ => 1
  | JValue.str _ => 1
  | JValue.arr [] => 1
  | JValue.arr (v :: vs) => 1 + costVal v + costArrTail vs
  | JValue.obj [] => 1
  | JValue.obj ((_, v) :: kvs) => 1 + costVal v + costObjTail kvs

/-- Parsing-step cost of an encoded array tail. -/
def costArrTail : List JValue → Nat
  | [] => 1
  | v :: vs => 1 + costVal v + costArrTail vs

/-- Parsing-step cost of an encoded object tail. -/
def costObjTail : List (String × JValue) → Nat
  | [] => 1
  | (_, v) :: kvs => 1 + costVal v + costObjTail kvs

end

/-- `json.dumps(metadata_dict).encode("utf-8")`: the byte blob stored in the
Parquet schema metadata is the JSON encoding of the metadata dict. -/
def jsonDumps (m : Meta) : List Tok := encodeVal (JValue.obj m)

/-- `json.loads` on a blob: parse one JSON value and require the whole input
to be consumed; `none` models `json.JSONDecodeError`. -/
def jsonLoads (bs : List Tok) : Option JValue :=
  match parseValF (bs.length + 1) bs with
  | some (v, []) => some v
  | _ => none

/-- The fixed schema-metadata key `b"polars_plugin_meta"`. -/
def polarsPluginMetaKey : String := "polars_plugin_meta"

/-- A PyArrow table at the interface the plugin consumes: an opaque columnar
payload plus `schema.metadata`, which is either `None` or a byte-keyed map.
A written Parquet file is identified with the table written into it
(`pq.write_table` / `pq.read_table` are the external codec). -/
structure ArrowTable where
  payload : Nat
  schemaMetadata : Option (List (String × List Tok))
deriving DecidableEq

/-- `ConfigMetaPlugin._write_parquet_plugin(file_path)`: serialize the bound
instance's metadata dict to JSON bytes, take the Arrow conversion of the
DataFrame (`tbl`, produced by the external `to_arrow()`), copy its existing
schema metadata (`arrow_table.schema.metadata or \x7b\x7d`), store the blob
under the fixed key, and hand the updated table to `pq.write_table`.  The
returned table is the content of the written file. -/
def writeParquetPlugin (st : Registry) (boundId : Nat) (tbl : ArrowTable) : ArrowTable :=
  let metadataJson := jsonDumps (getMeta st boundId)
  let existingMeta := tbl.schemaMetadata.getD []
  let newMeta := dictSet existingMeta polarsPluginMetaKey metadataJson
  { tbl with schemaMetadata := some newMeta }

/-- Outcome of `read_parquet_with_meta`: a returned DataFrame (with the
registry state as left behind), or a raised error carrying the registry state
at raise time. -/
inductive LoadResult where
  | ok (st : Registry) (dfId : Nat) : LoadResult
  | error (st : Registry) (msg : String) : LoadResult
deriving DecidableEq

/-- `read_parquet_with_meta(file_path)`: read the Arrow table, fetch the
fixed key from `schema.metadata or \x7b\x7d`, convert to a Polars DataFrame
(`pl.from_arrow`, external; the fresh instance's identity is `newId`), and if
the key was present decode the JSON and register-and-update the new instance.
A blob that does not parse raises `json.JSONDecodeError` before any
registration; a decoded non-object raises in `dict.update` after the
registration performed by `ConfigMetaPlugin(df)`. -/
def read_parquet_with_meta (st : Registry) (tbl : ArrowTable) (newId : Nat) : LoadResult :=
  let meta := tbl.schemaMetadata.getD []
  match List.lookup polarsPluginMetaKey meta with
  | none => LoadResult.ok st newId
  | some blob =>
    match jsonLoads blob with
    | none => LoadResult.error st "json.decoder.JSONDecodeError"
    | some (JValue.obj kvs) =>
        let s1 := ConfigMetaPlugin.init st newId
        LoadResult.ok (metaUpdate s1 newId kvs) newId
    | some _ =>
        LoadResult.error (ConfigMetaPlugin.init st newId)
          "TypeError in dict.update on a non-mapping payload"

/-- The operations that touch the registry, for stating registry invariants
over arbitrary operation sequences. -/
inductive Op where
  | construct (dfId : Nat) : Op
  | setMeta (dfId : Nat) (kvs : Meta) : Op
  | mergeMeta (dfId : Nat) (others : List Nat) : Op
  | wrappedCall (dfId : Nat) (res : CallResult) : Op
  | gcCleanup (wref : Nat) : Op
  | load (tbl : ArrowTable) (newId : Nat) : Op

/-- The registry state after one operation. -/
def applyOp (st : Registry) : Op → Registry
  | Op.construct dfId => ConfigMetaPlugin.init st dfId
  | Op.setMeta dfId kvs => ConfigMetaPlugin.set st dfId kvs
  | Op.mergeMeta dfId others => ConfigMetaPlugin.merge st dfId others
  | Op.wrappedCall dfId res => (wrapperStep st dfId res).1
  | Op.gcCleanup wref => ConfigMetaPlugin.cleanup st wref
  | Op.load tbl newId =>
      match read_parquet_with_meta st tbl newId with
      | LoadResult.ok st2 _ => st2
      | LoadResult.error st2 _ => st2

/-- The registry state after a sequence of operations. -/
def applyOps (st : Registry) (ops : List Op) : Registry :=
  ops.foldl applyOp st

/-- The keys of an association list, in order. -/
def keysOf {α β : Type} (d : List (α × β)) : List α := d.map Prod.fst

/-- `_df_id_to_meta` and `_df_id_to_ref` list exactly the same identities, in
the same order. -/
def keysAligned (st : Registry) : Prop := keysOf st.meta = keysOf st.refs

instance (st : Registry) : Decidable (keysAligned st) := by
  unfold keysAligned; infer_instance

/-- Fixture: two registered DataFrames with a colliding metadata key.  The
DataFrame with identity 0 carries the mapping `"k" ↦ 1` and the one with
identity 1 carries `"k" ↦ 2`; both hold their weak-observation handle. -/
def stAB : Registry :=
  { meta := [(0, [("k", JValue.num 1)]), (1, [("k", JValue.num 2)])]
    refs := [(0, 0), (1, 1)]
    nextRef := 2 }

/-- Fixture: one registered DataFrame (identity 0) carrying the mapping of
the round-trip example, `"a" ↦ 1` and `"b" ↦ "x"`. -/
def stRT : Registry :=
  { meta := [(0, [("a", JValue.num 1), ("b", JValue.str "x")])]
    refs := [(0, 0)]
    nextRef := 1 }

/-- Fixture: an Arrow table that already carries an unrelated schema-metadata
entry before the plugin writer touches it. -/
def tblW : ArrowTable := ⟨7, some [("other", [Tok.tnull])]⟩

/-- Fixture: an Arrow table with no schema metadata at all, as produced by a
plain external writer. -/
def tblBare : ArrowTable := ⟨3, none⟩

/-- Fixture: a DataFrame exposing no attributes. -/
def dfEmpty : DataFrame := ⟨0, fun _ => none⟩

/-- Fixture: a DataFrame with one attribute, `"style"`, whose value is the
Python `None`. -/
def dfNoneAttr : DataFrame := ⟨1, fun n => if n = "style" then some AttrVal.vnone else none⟩

section DictLemmas

variable {α β : Type} [BEq α] [LawfulBEq α]

theorem lookup_cons_self {k : α} {v : β} {d : List (α × β)} :
    List.lookup k ((k, v) :: d) = some v := by
  simp [List.lookup]

theorem lookup_cons_ne {k k1 : α} (h : k ≠ k1) (v1 : β) (d : List (α × β)) :
    List.lookup k ((k1, v1) :: d) = List.lookup k d := by
  simp [List.lookup, beq_false_of_ne h]

theorem keysOf_cons {p : α × β} {d : List (α × β)} : keysOf (p :: d) = p.1 :: keysOf d := rfl

theorem keysOf_append {d1 d2 : List (α × β)} : keysOf (d1 ++ d2) = keysOf d1 ++ keysOf d2 := by
  simp [keysOf]

theorem lookup_append_of_none {k : α} {d1 : List (α × β)} (d2 : List (α × β))
    (h : List.lookup k d1 = none) : List.lookup k (d1 ++ d2) = List.lookup k d2 := by
  induction d1 with
  | nil => simp
  | cons p d ih =>
      obtain ⟨k1, v1⟩ := p
      by_cases hk : k = k1
      · subst hk; rw [lookup_cons_self] at h; cases h
      · rw [lookup_cons_ne hk] at h
        rw [List.cons_append, lookup_cons_ne hk]
        exact ih h

theorem lookup_append_of_some {k : α} {d1 : List (α × β)} {v : β} (d2 : List (α × β))
    (h : List.lookup k d1 = some v) : List.lookup k (d1 ++ d2) = some v := by
  induction d1 with
  | nil => cases h
  | cons p d ih =>
      obtain ⟨k1, v1⟩ := p
      by_cases hk : k = k1
      · subst hk
        rw [lookup_cons_self] at h
        rw [List.cons_append, lookup_cons_self]
        exact h
      · rw [lookup_cons_ne hk] at h
        rw [List.cons_append, lookup_cons_ne hk]
        exact ih h

theorem any_key_eq_false_iff {k : α} {d : List (α × β)} :
    (d.any fun p => p.1 == k) = false ↔ List.lookup k d = none := by
  induction d with
  | nil => simp
  | cons p d ih =>
      obtain ⟨k1, v1⟩ := p
      by_cases hk : k1 = k
      · subst hk
        simp [lookup_cons_self]
      · have hk2 : k ≠ k1 := fun h => hk h.symm
        rw [List.any_cons]
        simp only [beq_false_of_ne hk, Bool.false_or]
        rw [lookup_cons_ne hk2]
        exact ih

theorem lookup_eq_none_iff_not_mem_keys {k : α} {d : List (α × β)} :
    List.lookup k d = none ↔ k ∉ keysOf d := by
  induction d with
  | nil => simp [keysOf]
  | cons p d ih =>
      obtain ⟨k1, v1⟩ := p
      by_cases hk : k = k1
      · subst hk
        simp [lookup_cons_self, keysOf_cons]
      · rw [lookup_cons_ne hk, keysOf_cons, ih]
        simp [List.mem_cons, hk]

theorem lookup_map_adjust (f : β → β) (i : α) (l : List (α × β)) :
    List.lookup i (l.map fun p => if p.1 == i then (p.1, f p.2) else p) =
      (List.lookup i l).map f := by
  induction l with
  | nil => simp
  | cons p l ih =>
      obtain ⟨k1, v1⟩ := p
      rw [List.map_cons]
      by_cases hk : k1 = i
      · subst hk
        simp [lookup_cons_self]
      · have hk2 : i ≠ k1 := fun h => hk h.symm
        simp only [beq_false_of_ne hk, Bool.false_eq_true, if_false]
        rw [lookup_cons_ne hk2, lookup_cons_ne hk2]
        exact ih

theorem lookup_map_adjust_ne (f : β → β) {i k2 : α} (hne : k2 ≠ i) (l : List (α × β)) :
    List.lookup k2 (l.map fun p => if p.1 == i then (p.1, f p.2) else p) =
      List.lookup k2 l := by
  induction l with
  | nil => simp
  | cons p l ih =>
      obtain ⟨k1, v1⟩ := p
      rw [List.map_cons]
      by_cases hk : k1 = i
      · subst hk
        simp only [beq_self_eq_true, if_true]
        rw [lookup_cons_ne hne, lookup_cons_ne hne]
        exact ih
      · by_cases hk2 : k2 = k1
        · subst hk2
          simp only [beq_false_of_ne hk, Bool.false_eq_true, if_false]
          rw [lookup_cons_self, lookup_cons_self]
        · simp only [beq_false_of_ne hk, Bool.false_eq_true, if_false]
          rw [lookup_cons_ne hk2, lookup_cons_ne hk2]
          exact ih

theorem keysOf_map_adjust (f : β → β) (i : α) (l : List (α × β)) :
    keysOf (l.map fun p => if p.1 == i then (p.1, f p.2) else p) = keysOf l := by
  induction l with
  | nil => simp [keysOf]
  | cons p l ih =>
      obtain ⟨k1, v1⟩ := p
      rw [List.map_cons]
      by_cases hk : k1 = i
      · subst hk
        simp only [beq_self_eq_true, if_true, keysOf_cons]
        rw [ih]
      · simp only [beq_false_of_ne hk, Bool.false_eq_true, if_false, keysOf_cons]
        rw [ih]

theorem dictSet_of_lookup_none {k : α} {d : List (α × β)} (v : β)
    (h : List.lookup k d = none) : dictSet d k v = d ++ [(k, v)] := by
  have ha : (d.any fun p => p.1 == k) = false := any_key_eq_false_iff.mpr h
  simp [dictSet, ha]

theorem dictSet_of_lookup_some {k : α} {d : List (α × β)} {w : β} (v : β)
    (h : List.lookup k d = some w) :
    dictSet d k v = d.map fun p => if p.1 == k then (p.1, v) else p := by
  rcases hb : (d.any fun p => p.1 == k) with _ | _
  · rw [any_key_eq_false_iff.mp hb] at h; cases h
  · simp [dictSet, hb]

theorem lookup_dictSet_self (k : α) (v : β) (d : List (α × β)) :
    List.lookup k (dictSet d k v) = some v := by
  rcases hl : List.lookup k d with _ | w
  · rw [dictSet_of_lookup_none v hl, lookup_append_of_none _ hl, lookup_cons_self]
  · rw [dictSet_of_lookup_some v hl, lookup_map_adjust (fun _ => v), hl]
    rfl

theorem lookup_dictSet_ne {k2 k : α} (hne : k2 ≠ k) (v : β) (d : List (α × β)) :
    List.lookup k2 (dictSet d k v) = List.lookup k2 d := by
  rcases hl : List.lookup k d with _ | w
  · rw [dictSet_of_lookup_none v hl]
    rcases hl2 : List.lookup k2 d with _ | u
    · rw [lookup_append_of_none _ hl2, lookup_cons_ne hne]
      rfl
    · exact lookup_append_of_some _ hl2
  · rw [dictSet_of_lookup_some v hl]
    exact lookup_map_adjust_ne (fun _ => v) hne d

theorem keysOf_dictSet_of_lookup_some {k : α} {d : List (α × β)} {w : β} (v : β)
    (h : List.lookup k d = some w) : keysOf (dictSet d k v) = keysOf d := by
  rw [dictSet_of_lookup_some v h]
  exact keysOf_map_adjust (fun _ => v) k d

theorem lookup_dictUpdate_of_none {k : α} {other : List (α × β)} (d : List (α × β))
    (h : List.lookup k other = none) :
    List.lookup k (dictUpdate d other) = List.lookup k d := by
  induction other generalizing d with
  | nil => simp [dictUpdate]
  | cons p o ih =>
      obtain ⟨k1, v1⟩ := p
      have hk : k ≠ k1 := by
        intro he; subst he; rw [lookup_cons_self] at h; cases h
      rw [lookup_cons_ne hk] at h
      show List.lookup k (dictUpdate (dictSet d k1 v1) o) = List.lookup k d
      rw [ih (dictSet d k1 v1) h, lookup_dictSet_ne hk]

theorem lookup_dictUpdate_of_some {k : α} {other : List (α × β)} {v : β} (d : List (α × β))
    (hnd : (keysOf other).Nodup) (h : List.lookup k other = some v) :
    List.lookup k (dictUpdate d other) = some v := by
  induction other generalizing d with
  | nil => cases h
  | cons p o ih =>
      obtain ⟨k1, v1⟩ := p
      rw [keysOf_cons] at hnd
      obtain ⟨h1, h2⟩ := List.nodup_cons.mp hnd
      by_cases hk : k = k1
      · subst hk
        rw [lookup_cons_self] at h
        show List.lookup k (dictUpdate (dictSet d k v1) o) = some v
        have ho : List.lookup k o = none := lookup_eq_none_iff_not_mem_keys.mpr h1
        rw [lookup_dictUpdate_of_none _ ho, lookup_dictSet_self]
        exact h
      · rw [lookup_cons_ne hk] at h
        show List.lookup k (dictUpdate (dictSet d k1 v1) o) = some v
        exact ih (dictSet d k1 v1) h2 h

theorem dictUpdate_disjoint {other : List (α × β)} (d : List (α × β))
    (hd : ∀ a ∈ keysOf other, List.lookup a d = none)
    (hnd : (keysOf other).Nodup) : dictUpdate d other = d ++ other := by
  induction other generalizing d with
  | nil => simp [dictUpdate]
  | cons p o ih =>
      obtain ⟨k1, v1⟩ := p
      rw [keysOf_cons] at hnd hd
      obtain ⟨h1, h2⟩ := List.nodup_cons.mp hnd
      show dictUpdate (dictSet d k1 v1) o = d ++ (k1, v1) :: o
      rw [dictSet_of_lookup_none v1 (hd k1 (List.mem_cons_self _ _))]
      have hdisj : ∀ a ∈ keysOf o, List.lookup a (d ++ [(k1, v1)]) = none := by
        intro a ha
        have hak1 : a ≠ k1 := fun he => h1 (he ▸ ha)
        rw [lookup_append_of_none _ (hd a (List.mem_cons_of_mem _ ha)), lookup_cons_ne hak1]
        rfl
      rw [ih (d ++ [(k1, v1)]) hdisj h2]
      simp

theorem dictUpdate_nil {other : List (α × β)} (hnd : (keysOf other).Nodup) :
    dictUpdate ([] : List (α × β)) other = other := by
  rw [dictUpdate_disjoint [] (fun a _ => rfl) hnd]
  simp

end DictLemmas

section RegistryLemmas

theorem isRegistered_eq_false_iff {st : Registry} {d : Nat} :
    isRegistered st d = false ↔ List.lookup d st.meta = none :=
  any_key_eq_false_iff

theorem isRegistered_of_lookup {st : Registry} {d : Nat} {M : Meta}
    (h : List.lookup d st.meta = some M) : isRegistered st d = true := by
  rcases hb : isRegistered st d with _ | _
  · rw [isRegistered_eq_false_iff.mp hb] at h; cases h
  · rfl

theorem init_of_registered {st : Registry} {d : Nat} (h : isRegistered st d = true) :
    ConfigMetaPlugin.init st d = st := by
  simp [ConfigMetaPlugin.init, h]

theorem init_of_fresh {st : Registry} {d : Nat} (h : isRegistered st d = false) :
    ConfigMetaPlugin.init st d =
      ⟨st.meta ++ [(d, [])], st.refs ++ [(d, st.nextRef)], st.nextRef + 1⟩ := by
  simp [ConfigMetaPlugin.init, h]

theorem lookup_init_self_of_fresh {st : Registry} {d : Nat} (h : isRegistered st d = false) :
    List.lookup d (ConfigMetaPlugin.init st d).meta = some [] := by
  rw [init_of_fresh h]
  show List.lookup d (st.meta ++ [(d, [])]) = some []
  rw [lookup_append_of_none _ (isRegistered_eq_false_iff.mp h)]
  exact lookup_cons_self

theorem lookup_init_of_some {st : Registry} {j : Nat} {M : Meta} (d : Nat)
    (h : List.lookup j st.meta = some M) :
    List.lookup j (ConfigMetaPlugin.init st d).meta = some M := by
  rcases hb : isRegistered st d with _ | _
  · rw [init_of_fresh hb]
    exact lookup_append_of_some _ h
  · rw [init_of_registered hb]; exact h

theorem isRegistered_init_self (st : Registry) (d : Nat) :
    isRegistered (ConfigMetaPlugin.init st d) d = true := by
  rcases hb : isRegistered st d with _ | _
  · rw [init_of_fresh hb]
    show (st.meta ++ [(d, [])]).any (fun p => p.1 == d) = true
    simp
  · rw [init_of_registered hb]; exact hb

theorem lookup_metaUpdate_self {st : Registry} {i : Nat} {M : Meta} (m : Meta)
    (h : List.lookup i st.meta = some M) :
    List.lookup i (metaUpdate st i m).meta = some (dictUpdate M m) := by
  show List.lookup i (st.meta.map fun p => if p.1 == i then (p.1, dictUpdate p.2 m) else p) =
    some (dictUpdate M m)
  rw [lookup_map_adjust (fun x => dictUpdate x m), h]
  rfl

theorem getMeta_metaUpdate_self {st : Registry} {i : Nat} {M : Meta} (m : Meta)
    (h : List.lookup i st.meta = some M) :
    getMeta (metaUpdate st i m) i = dictUpdate M m := by
  unfold getMeta
  rw [lookup_metaUpdate_self m h]
  rfl

theorem keysAligned_init {st : Registry} (h : keysAligned st) (d : Nat) :
    keysAligned (ConfigMetaPlugin.init st d) := by
  rcases hb : isRegistered st d with _ | _
  · rw [init_of_fresh hb]
    unfold keysAligned at h ⊢
    show keysOf (st.meta ++ [(d, [])]) = keysOf (st.refs ++ [(d, st.nextRef)])
    rw [keysOf_append, keysOf_append, h]
    rfl
  · rw [init_of_registered hb]; exact h

theorem keysAligned_metaUpdate {st : Registry} (h : keysAligned st) (i : Nat) (m : Meta) :
    keysAligned (metaUpdate st i m) := by
  unfold keysAligned at h ⊢
  show keysOf (st.meta.map fun p => if p.1 == i then (p.1, dictUpdate p.2 m) else p) =
    keysOf st.refs
  rw [keysOf_map_adjust (fun x => dictUpdate x m), h]

theorem keysAligned_merge {st : Registry} (h : keysAligned st) (b : Nat) (others : List Nat) :
    keysAligned (ConfigMetaPlugin.merge st b others) := by
  induction others generalizing st with
  | nil => exact h
  | cons o os ih =>
      show keysAligned (ConfigMetaPlugin.merge
        (metaUpdate (ConfigMetaPlugin.init st o) b (getMeta (ConfigMetaPlugin.init st o) o)) b os)
      exact ih (keysAligned_metaUpdate (keysAligned_init h o) b _)

theorem keysOf_filter_key {β : Type} (l : List (Nat × β)) (i : Nat) :
    keysOf (l.filter fun q => !(q.1 == i)) = (keysOf l).filter (fun k => !(k == i)) := by
  induction l with
  | nil => rfl
  | cons p l ih =>
      obtain ⟨k1, v1⟩ := p
      by_cases hk : k1 = i
      · subst hk
        simp [List.filter_cons, keysOf_cons, ih]
      · simp [List.filter_cons, keysOf_cons, beq_false_of_ne hk, ih]

theorem keysAligned_cleanup {st : Registry} (h : keysAligned st) (w : Nat) :
    keysAligned (ConfigMetaPlugin.cleanup st w) := by
  cases hf : st.refs.find? (fun p => p.2 == w) with
  | none => simpa [ConfigMetaPlugin.cleanup, hf] using h
  | some p =>
      unfold keysAligned at h ⊢
      simp only [ConfigMetaPlugin.cleanup, hf]
      rw [keysOf_filter_key, keysOf_filter_key, h]

theorem keysAligned_wrapperStep {st : Registry} (h : keysAligned st) (b : Nat)
    (res : CallResult) : keysAligned (wrapperStep st b res).1 := by
  cases res with
  | frame rid => exact keysAligned_metaUpdate (keysAligned_init h rid) rid _
  | other v => exact h

theorem read_parquet_absent {st : Registry} {tbl : ArrowTable} {newId : Nat}
    (h : List.lookup polarsPluginMetaKey (tbl.schemaMetadata.getD []) = none) :
    read_parquet_with_meta st tbl newId = LoadResult.ok st newId := by
  simp only [read_parquet_with_meta, h]

theorem read_parquet_found_badjson {st : Registry} {tbl : ArrowTable} {newId : Nat}
    {blob : List Tok}
    (h : List.lookup polarsPluginMetaKey (tbl.schemaMetadata.getD []) = some blob)
    (hj : jsonLoads blob = none) :
    read_parquet_with_meta st tbl newId =
      LoadResult.error st "json.decoder.JSONDecodeError" := by
  simp only [read_parquet_with_meta, h, hj]

theorem read_parquet_found_obj {st : Registry} {tbl : ArrowTable} {newId : Nat}
    {blob : List Tok} {kvs : Meta}
    (h : List.lookup polarsPluginMetaKey (tbl.schemaMetadata.getD []) = some blob)
    (hj : jsonLoads blob = some (JValue.obj kvs)) :
    read_parquet_with_meta st tbl newId =
      LoadResult.ok (metaUpdate (ConfigMetaPlugin.init st newId) newId kvs) newId := by
  simp only [read_parquet_with_meta, h, hj]

theorem read_parquet_found_nonobj {st : Registry} {tbl : ArrowTable} {newId : Nat}
    {blob : List Tok} {v : JValue}
    (h : List.lookup polarsPluginMetaKey (tbl.schemaMetadata.getD []) = some blob)
    (hj : jsonLoads blob = some v) (hv : ∀ kvs, v ≠ JValue.obj kvs) :
    read_parquet_with_meta st tbl newId =
      LoadResult.error (ConfigMetaPlugin.init st newId)
        "TypeError in dict.update on a non-mapping payload" := by
  cases v with
  | obj kvs => exact absurd rfl (hv kvs)
  | null => simp only [read_parquet_with_meta, h, hj]
  | bool b => simp only [read_parquet_with_meta, h, hj]
  | num n => simp only [read_parquet_with_meta, h, hj]
  | str s => simp only [read_parquet_with_meta, h, hj]
  | arr vs => simp only [read_parquet_with_meta, h, hj]

theorem keysAligned_applyOp {st : Registry} (h : keysAligned st) (op : Op) :
    keysAligned (applyOp st op) := by
  cases op with
  | construct d => exact keysAligned_init h d
  | setMeta d kvs => exact keysAligned_metaUpdate h d kvs
  | mergeMeta d others => exact keysAligned_merge h d others
  | wrappedCall d res => exact keysAligned_wrapperStep h d res
  | gcCleanup w => exact keysAligned_cleanup h w
  | load tbl newId =>
      show keysAligned (match read_parquet_with_meta st tbl newId with
        | LoadResult.ok st2 _ => st2
        | LoadResult.error st2 _ => st2)
      cases hl : List.lookup polarsPluginMetaKey (tbl.schemaMetadata.getD []) with
      | none => rw [read_parquet_absent hl]; exact h
      | some blob =>
          cases hj : jsonLoads blob with
          | none => rw [read_parquet_found_badjson hl hj]; exact h
          | some v =>
              cases v with
              | null =>
                  rw [read_parquet_found_nonobj hl hj (fun kvs hc => JValue.noConfusion hc)]
                  exact keysAligned_init h newId
              | bool b =>
                  rw [read_parquet_found_nonobj hl hj (fun kvs hc => JValue.noConfusion hc)]
                  exact keysAligned_init h newId
              | num n =>
                  rw [read_parquet_found_nonobj hl hj (fun kvs hc => JValue.noConfusion hc)]
                  exact keysAligned_init h newId
              | str s =>
                  rw [read_parquet_found_nonobj hl hj (fun kvs hc => JValue.noConfusion hc)]
                  exact keysAligned_init h newId
              | arr vs =>
                  rw [read_parquet_found_nonobj hl hj (fun kvs hc => JValue.noConfusion hc)]
                  exact keysAligned_init h newId
              | obj kvs =>
                  rw [read_parquet_found_obj hl hj]
                  exact keysAligned_metaUpdate (keysAligned_init h newId) newId kvs

theorem keysAligned_applyOps {st : Registry} (h : keysAligned st) (ops : List Op) :
    keysAligned (applyOps st ops) := by
  induction ops generalizing st with
  | nil => exact h
  | cons op ops ih => exact ih (keysAligned_applyOp h op)

end RegistryLemmas

section JsonRoundTrip

theorem costVal_pos (v : JValue) : 1 ≤ costVal v := by
  cases v with
  | null => simp [costVal]
  | bool b => simp [costVal]
  | num n => simp [costVal]
  | str s => simp [costVal]
  | arr vs => rcases vs with _ | ⟨hd, tl⟩ <;> (simp only [costVal]; omega)
  | obj kvs => rcases kvs with _ | ⟨⟨k, w⟩, tl⟩ <;> (simp only [costVal]; omega)

theorem costArrTail_pos (vs : List JValue) : 1 ≤ costArrTail vs := by
  rcases vs with _ | ⟨hd, tl⟩ <;> (simp only [costArrTail]; omega)

theorem costObjTail_pos (kvs : List (String × JValue)) : 1 ≤ costObjTail kvs := by
  rcases kvs with _ | ⟨⟨k, w⟩, tl⟩ <;> (simp only [costObjTail]; omega)

theorem encodeVal_head_cons (v : JValue) :
    ∃ t ts, encodeVal v = t :: ts ∧ t ≠ Tok.rbrack := by
  cases v with
  | null => exact ⟨Tok.tnull, [], rfl, fun h => Tok.noConfusion h⟩
  | bool b => exact ⟨Tok.tbool b, [], rfl, fun h => Tok.noConfusion h⟩
  | num n => exact ⟨Tok.tnum n, [], rfl, fun h => Tok.noConfusion h⟩
  | str s => exact ⟨Tok.tstr s, [], rfl, fun h => Tok.noConfusion h⟩
  | arr vs =>
      rcases vs with _ | ⟨hd, tl⟩
      · exact ⟨Tok.lbrack, [Tok.rbrack], rfl, fun h => Tok.noConfusion h⟩
      · exact ⟨Tok.lbrack, encodeVal hd ++ encodeArrTail tl, rfl, fun h => Tok.noConfusion h⟩
  | obj kvs =>
      rcases kvs with _ | ⟨⟨k, w⟩, tl⟩
      · exact ⟨Tok.lbrace, [Tok.rbrace], rfl, fun h => Tok.noConfusion h⟩
      · exact ⟨Tok.lbrace, Tok.tstr k :: Tok.colon :: encodeVal w ++ encodeObjTail tl, rfl,
          fun h => Tok.noConfusion h⟩

theorem parseValF_succ_lbrack (fuel : Nat) (t : Tok) (ts : List Tok) (h : t ≠ Tok.rbrack) :
    parseValF (fuel + 1) (Tok.lbrack :: t :: ts) =
      match parseValF fuel (t :: ts) with
      | none => none
      | some (v, ts2) =>
        match parseArrTailF fuel ts2 with
        | none => none
        | some (vs, ts3) => some (JValue.arr (v :: vs), ts3) := by
  cases t <;> first | rfl | exact absurd rfl h

mutual

theorem parseValF_encodeVal : ∀ (v : JValue) (rest : List Tok) (fuel : Nat),
    costVal v ≤ fuel → parseValF fuel (encodeVal v ++ rest) = some (v, rest)
  | v, _, 0, h => absurd (Nat.le_trans (costVal_pos v) h) (by omega)
  | JValue.null, rest, fuel + 1, _ => by simp [encodeVal, parseValF]
  | JValue.bool b, rest, fuel + 1, _ => by simp [encodeVal, parseValF]
  | JValue.num n, rest, fuel + 1, _ => by simp [encodeVal, parseValF]
  | JValue.str s, rest, fuel + 1, _ => by simp [encodeVal, parseValF]
  | JValue.arr [], rest, fuel + 1, _ => by simp [encodeVal, parseValF]
  | JValue.arr (v :: vs), rest, fuel + 1, h => by
      simp only [costVal] at h
      have h1 : costVal v ≤ fuel := by omega
      have h2 : costArrTail vs ≤ fuel := by omega
      have e1 := parseValF_encodeVal v (encodeArrTail vs ++ rest) fuel h1
      have e2 := parseArrTailF_encodeArrTail vs rest fuel h2
      obtain ⟨t, ts, het, hne⟩ := encodeVal_head_cons v
      have hshape : encodeVal (JValue.arr (v :: vs)) ++ rest =
          Tok.lbrack :: t :: (ts ++ (encodeArrTail vs ++ rest)) := by
        simp [encodeVal, het]
      have e1' : parseValF fuel (t :: (ts ++ (encodeArrTail vs ++ rest))) =
          some (v, encodeArrTail vs ++ rest) := by
        have : t :: (ts ++ (encodeArrTail vs ++ rest)) =
            encodeVal v ++ (encodeArrTail vs ++ rest) := by simp [het]
        rw [this]
        exact e1
      rw [hshape, parseValF_succ_lbrack fuel t _ hne]
      simp only [e1', e2]
  | JValue.obj [], rest, fuel + 1, _ => by simp [encodeVal, parseValF]
  | JValue.obj ((k, v) :: kvs), rest, fuel + 1, h => by
      simp only [costVal] at h
      have h1 : costVal v ≤ fuel := by omega
      have h2 : costObjTail kvs ≤ fuel := by omega
      have e1 := parseValF_encodeVal v (encodeObjTail kvs ++ rest) fuel h1
      have e2 := parseObjTailF_encodeObjTail kvs rest fuel h2
      have hshape : encodeVal (JValue.obj ((k, v) :: kvs)) ++ rest =
          Tok.lbrace :: Tok.tstr k :: Tok.colon :: (encodeVal v ++ (encodeObjTail kvs ++ rest)) := by
        simp [encodeVal]
      rw [hshape]
      simp only [parseValF, e1, e2]

theorem parseArrTailF_encodeArrTail : ∀ (vs : List JValue) (rest : List Tok) (fuel : Nat),
    costArrTail vs ≤ fuel → parseArrTailF fuel (encodeArrTail vs ++ rest) = some (vs, rest)
  | vs, _, 0, h => absurd (Nat.le_trans (costArrTail_pos vs) h) (by omega)
  | [], rest, fuel + 1, _ => by simp [encodeArrTail, parseArrTailF]
  | v :: vs, rest, fuel + 1, h => by
      simp only [costArrTail] at h
      have h1 : costVal v ≤ fuel := by omega
      have h2 : costArrTail vs ≤ fuel := by omega
      have e1 := parseValF_encodeVal v (encodeArrTail vs ++ rest) fuel h1
      have e2 := parseArrTailF_encodeArrTail vs rest fuel h2
      have hshape : encodeArrTail (v :: vs) ++ rest =
          Tok.comma :: (encodeVal v ++ (encodeArrTail vs ++ rest)) := by
        simp [encodeArrTail]
      rw [hshape]
      simp only [parseArrTailF, e1, e2]

theorem parseObjTailF_encodeObjTail : ∀ (kvs : List (String × JValue)) (rest : List Tok)
    (fuel : Nat), costObjTail kvs ≤ fuel →
    parseObjTailF fuel (encodeObjTail kvs ++ rest) = some (kvs, rest)
  | kvs, _, 0, h => absurd (Nat.le_trans (costObjTail_pos kvs) h) (by omega)
  | [], rest, fuel + 1, _ => by simp [encodeObjTail, parseObjTailF]
  | (k, v) :: kvs, rest, fuel + 1, h => by
      simp only [costObjTail] at h
      have h1 : costVal v ≤ fuel := by omega
      have h2 : costObjTail kvs ≤ fuel := by omega
      have e1 := parseValF_encodeVal v (encodeObjTail kvs ++ rest) fuel h1
      have e2 := parseObjTailF_encodeObjTail kvs rest fuel h2
      have hshape : encodeObjTail ((k, v) :: kvs) ++ rest =
          Tok.comma :: Tok.tstr k :: Tok.colon :: (encodeVal v ++ (encodeObjTail kvs ++ rest)) := by
        simp [encodeObjTail]
      rw [hshape]
      simp only [parseObjTailF, e1, e2]

end

mutual

theorem costVal_le_length : ∀ v : JValue, costVal v ≤ (encodeVal v).length
  | JValue.null => by simp [costVal, encodeVal]
  | JValue.bool b => by simp [costVal, encodeVal]
  | JValue.num n => by simp [costVal, encodeVal]
  | JValue.str s => by simp [costVal, encodeVal]
  | JValue.arr [] => by simp [costVal, encodeVal]
  | JValue.arr (v :: vs) => by
      have h1 := costVal_le_length v
      have h2 := costArrTail_le_length vs
      simp only [costVal, encodeVal, List.length_cons, List.length_append]
      omega
  | JValue.obj [] => by simp [costVal, encodeVal]
  | JValue.obj ((k, v) :: kvs) => by
      have h1 := costVal_le_length v
      have h2 := costObjTail_le_length kvs
      simp only [costVal, encodeVal, List.length_cons, List.length_append]
      omega

theorem costArrTail_le_length : ∀ vs : List JValue, costArrTail vs ≤ (encodeArrTail vs).length
  | [] => by simp [costArrTail, encodeArrTail]
  | v :: vs => by
      have h1 := costVal_le_length v
      have h2 := costArrTail_le_length vs
      simp only [costArrTail, encodeArrTail, List.length_cons, List.length_append]
      omega

theorem costObjTail_le_length : ∀ kvs : List (String × JValue),
    costObjTail kvs ≤ (encodeObjTail kvs).length
  | [] => by simp [costObjTail, encodeObjTail]
  | (k, v) :: kvs => by
      have h1 := costVal_le_length v
      have h2 := costObjTail_le_length kvs
      simp only [costObjTail, encodeObjTail, List.length_cons, List.length_append]
      omega

end

theorem jsonLoads_jsonDumps (m : Meta) : jsonLoads (jsonDumps m) = some (JValue.obj m) := by
  unfold jsonLoads jsonDumps
  have hfuel : costVal (JValue.obj m) ≤ (encodeVal (JValue.obj m)).length + 1 :=
    Nat.le_succ_of_le (costVal_le_length _)
  have hp := parseValF_encodeVal (JValue.obj m) [] ((encodeVal (JValue.obj m)).length + 1) hfuel
  rw [List.append_nil] at hp
  simp only [hp]

end JsonRoundTrip

/-- C1 counterexample: with instance A (identity 0) whose metadata maps `"k"`
to `1` and instance B (identity 1) whose metadata maps `"k"` to `2`, after
`A.merge(B)` A's metadata at `"k"` is no longer `1`: `dict.update` lets the
merged-in instance overwrite the bound instance, so the claimed precedence
fails at this concrete input. -/
theorem c1_merge_bound_wins_counterexample :
    List.lookup "k" (getMeta (ConfigMetaPlugin.merge stAB 0 [1]) 0) ≠ some (JValue.num 1) := by
  decide

/-- C1 (amended): for instances A (metadata mapping `k ↦ v1`) and B (metadata
mapping `k ↦ v2`), after `A.merge(B)` A's metadata at `k` is `v2` — on a key
collision the merged-in instance's value overwrites the bound instance's
pre-existing value, because `merge` runs
`self._df_id_to_meta[self._df_id].update(other_meta)` and `dict.update` lets
the argument win. -/
theorem c1_merge_merged_in_wins (st : Registry) (a bId : Nat) (k : String)
    (Ma Mb : Meta) (v1 v2 : JValue)
    (ha : List.lookup a st.meta = some Ma)
    (hv1 : List.lookup k Ma = some v1)
    (hb : List.lookup bId st.meta = some Mb)
    (hv2 : List.lookup k Mb = some v2)
    (hnd : (keysOf Mb).Nodup) :
    List.lookup k (getMeta (ConfigMetaPlugin.merge st a [bId]) a) = some v2 := by
  have hreg : isRegistered st bId = true := isRegistered_of_lookup hb
  have hmerge : ConfigMetaPlugin.merge st a [bId] = metaUpdate st a (getMeta st bId) := by
    show metaUpdate (ConfigMetaPlugin.init st bId) a
        (getMeta (ConfigMetaPlugin.init st bId) bId) = metaUpdate st a (getMeta st bId)
    rw [init_of_registered hreg]
  have hgb : getMeta st bId = Mb := by unfold getMeta; rw [hb]; rfl
  rw [hmerge, hgb, getMeta_metaUpdate_self Mb ha]
  exact lookup_dictUpdate_of_some Ma hnd hv2

/-- Witness for the amended C1 at the concrete fixture. -/
theorem c1_merge_merged_in_wins_witness :
    List.lookup "k" (getMeta (ConfigMetaPlugin.merge stAB 0 [1]) 0) = some (JValue.num 2) :=
  c1_merge_merged_in_wins stAB 0 1 "k" [("k", JValue.num 1)] [("k", JValue.num 2)]
    (JValue.num 1) (JValue.num 2) (by decide) (by decide) (by decide) (by decide) (by decide)

/-- C2: when a forwarded call on the proxy of an instance with registered
metadata `M` returns a new (hence unregistered) DataFrame, the wrapper
registers the result and its registered metadata equals `M` immediately
afterwards. -/
theorem c2_propagation_copies_metadata (st : Registry) (b rid : Nat) (M : Meta)
    (hb : List.lookup b st.meta = some M)
    (hnd : (keysOf M).Nodup)
    (hfresh : isRegistered st rid = false) :
    getMeta (wrapperStep st b (CallResult.frame rid)).1 rid = M := by
  have h1 : List.lookup rid (ConfigMetaPlugin.init st rid).meta = some [] :=
    lookup_init_self_of_fresh hfresh
  have hgb : getMeta (ConfigMetaPlugin.init st rid) b = M := by
    unfold getMeta; rw [lookup_init_of_some rid hb]; rfl
  show getMeta (metaUpdate (ConfigMetaPlugin.init st rid) rid
      (getMeta (ConfigMetaPlugin.init st rid) b)) rid = M
  rw [hgb, getMeta_metaUpdate_self M h1, dictUpdate_nil hnd]

/-- Witness for C2 at the concrete fixture. -/
theorem c2_propagation_copies_metadata_witness :
    getMeta (wrapperStep stAB 0 (CallResult.frame 9)).1 9 = [("k", JValue.num 1)] :=
  c2_propagation_copies_metadata stAB 0 9 [("k", JValue.num 1)] (by decide) (by decide)
    (by decide)

/-- C3: for an instance whose registered metadata is the JSON-representable
mapping `M`, writing through the plugin's parquet writer and loading the file
back with `read_parquet_with_meta` succeeds and registers, for the freshly
created instance, a metadata mapping equal to `M` exactly. -/
theorem c3_parquet_round_trip (st : Registry) (b newId : Nat) (M : Meta) (tbl : ArrowTable)
    (hb : List.lookup b st.meta = some M)
    (hnd : (keysOf M).Nodup)
    (hfresh : isRegistered st newId = false) :
    ∃ st2, read_parquet_with_meta st (writeParquetPlugin st b tbl) newId =
        LoadResult.ok st2 newId ∧ getMeta st2 newId = M := by
  have hgb : getMeta st b = M := by unfold getMeta; rw [hb]; rfl
  have hkey : List.lookup polarsPluginMetaKey
      ((writeParquetPlugin st b tbl).schemaMetadata.getD []) =
      some (jsonDumps (getMeta st b)) := by
    show List.lookup polarsPluginMetaKey
      (dictSet (tbl.schemaMetadata.getD []) polarsPluginMetaKey
        (jsonDumps (getMeta st b))) = some (jsonDumps (getMeta st b))
    exact lookup_dictSet_self _ _ _
  rw [hgb] at hkey
  refine ⟨metaUpdate (ConfigMetaPlugin.init st newId) newId M,
    read_parquet_found_obj hkey (jsonLoads_jsonDumps M), ?_⟩
  have h1 : List.lookup newId (ConfigMetaPlugin.init st newId).meta = some [] :=
    lookup_init_self_of_fresh hfresh
  rw [getMeta_metaUpdate_self M h1, dictUpdate_nil hnd]

/-- Witness for C3 at the spec's example mapping. -/
theorem c3_parquet_round_trip_witness :
    ∃ st2, read_parquet_with_meta stRT (writeParquetPlugin stRT 0 tblW) 5 =
        LoadResult.ok st2 5 ∧
      getMeta st2 5 = [("a", JValue.num 1), ("b", JValue.str "x")] :=
  c3_parquet_round_trip stRT 0 5 [("a", JValue.num 1), ("b", JValue.str "x")] tblW
    (by decide) (by decide) (by decide)

/-- C4: proxy construction (ensure-registered) is idempotent and total: on a
registered identity it leaves the registry untouched (metadata and weak
handle preserved); on an unseen identity it appends an empty metadata mapping
and a fresh weak handle; and running it twice equals running it once. -/
theorem c4_init_idempotent (st : Registry) (d : Nat) :
    (isRegistered st d = true → ConfigMetaPlugin.init st d = st) ∧
    (isRegistered st d = false →
      (ConfigMetaPlugin.init st d).meta = st.meta ++ [(d, [])] ∧
      (ConfigMetaPlugin.init st d).refs = st.refs ++ [(d, st.nextRef)]) ∧
    ConfigMetaPlugin.init (ConfigMetaPlugin.init st d) d = ConfigMetaPlugin.init st d := by
  refine ⟨fun h => init_of_registered h, fun h => ?_,
    init_of_registered (isRegistered_init_self st d)⟩
  rw [init_of_fresh h]
  exact ⟨rfl, rfl⟩

/-- Witness for C4: a no-op on the registered identity 0 of the fixture, and
a fresh registration on the empty registry. -/
theorem c4_init_idempotent_witness :
    ConfigMetaPlugin.init stAB 0 = stAB ∧
    (ConfigMetaPlugin.init Registry.empty 7).meta = Registry.empty.meta ++ [(7, [])] ∧
    (ConfigMetaPlugin.init Registry.empty 7).refs =
      Registry.empty.refs ++ [(7, Registry.empty.nextRef)] :=
  ⟨(c4_init_idempotent stAB 0).1 (by decide),
   (c4_init_idempotent Registry.empty 7).2.1 (by decide)⟩

/-- C5: a name that is not defined on the plugin and is not the persist
override, and that the underlying DataFrame does not have, resolves at
lookup time to an `AttributeError` whose message names the missing
attribute. -/
theorem c5_missing_attribute_error (df : DataFrame) (name : String)
    (h1 : name ∉ pluginAttrs) (h2 : name ≠ "write_parquet")
    (h3 : df.attrs name = none) :
    proxyResolve df name =
      ResolveResult.attrError ("Polars DataFrame has no attribute \x27" ++ name ++ "\x27") := by
  unfold proxyResolve configMetaGetattr
  rw [if_neg h1, if_neg (by simpa using h2), h3]
  rfl

/-- Witness for C5 on a DataFrame with no attributes. -/
theorem c5_missing_attribute_error_witness :
    proxyResolve dfEmpty "frobnicate" =
      ResolveResult.attrError
        ("Polars DataFrame has no attribute \x27" ++ "frobnicate" ++ "\x27") :=
  c5_missing_attribute_error dfEmpty "frobnicate" (by decide) (by decide) rfl

/-- C6: a forwarded call whose result is not a DataFrame passes the result
through unchanged and leaves the registry — both the metadata map and the
weak-handle map — exactly as it was. -/
theorem c6_nonframe_passthrough (st : Registry) (b : Nat) (v : PyData) :
    wrapperStep st b (CallResult.other v) = (st, CallResult.other v) := rfl

/-- C7: the plugin writer gives the written table a schema-metadata map equal
to the table's pre-existing map (empty if none) plus the fixed key bound to
the JSON encoding of the bound instance's metadata: every other key keeps its
value and the fixed key is bound to the blob (overwriting any previous
binding). -/
theorem c7_write_schema_metadata (st : Registry) (b : Nat) (tbl : ArrowTable) :
    (∀ k, k ≠ polarsPluginMetaKey →
      List.lookup k ((writeParquetPlugin st b tbl).schemaMetadata.getD []) =
        List.lookup k (tbl.schemaMetadata.getD [])) ∧
    List.lookup polarsPluginMetaKey ((writeParquetPlugin st b tbl).schemaMetadata.getD []) =
      some (jsonDumps (getMeta st b)) := by
  constructor
  · intro k hk
    show List.lookup k (dictSet (tbl.schemaMetadata.getD []) polarsPluginMetaKey
      (jsonDumps (getMeta st b))) = List.lookup k (tbl.schemaMetadata.getD [])
    exact lookup_dictSet_ne hk _ _
  · show List.lookup polarsPluginMetaKey (dictSet (tbl.schemaMetadata.getD [])
      polarsPluginMetaKey (jsonDumps (getMeta st b))) = some (jsonDumps (getMeta st b))
    exact lookup_dictSet_self _ _ _

/-- Witness for C7 on a table that already carries an unrelated entry. -/
theorem c7_write_schema_metadata_witness :
    List.lookup "other" ((writeParquetPlugin stAB 0 tblW).schemaMetadata.getD []) =
      List.lookup "other" (tblW.schemaMetadata.getD []) ∧
    List.lookup polarsPluginMetaKey ((writeParquetPlugin stAB 0 tblW).schemaMetadata.getD []) =
      some (jsonDumps (getMeta stAB 0)) :=
  ⟨(c7_write_schema_metadata stAB 0 tblW).1 "other" (by decide),
   (c7_write_schema_metadata stAB 0 tblW).2⟩

/-- C8: loading a file whose schema metadata lacks the fixed key returns the
new DataFrame without error and without touching the registry, and the
metadata subsequently observed through a fresh proxy on that DataFrame is the
empty mapping. -/
theorem c8_absent_key_empty_metadata (st : Registry) (tbl : ArrowTable) (newId : Nat)
    (hkey : List.lookup polarsPluginMetaKey (tbl.schemaMetadata.getD []) = none)
    (hfresh : isRegistered st newId = false) :
    read_parquet_with_meta st tbl newId = LoadResult.ok st newId ∧
    getMeta (ConfigMetaPlugin.init st newId) newId = [] := by
  refine ⟨read_parquet_absent hkey, ?_⟩
  unfold getMeta
  rw [lookup_init_self_of_fresh hfresh]
  rfl

/-- Witness for C8 on a table with no schema metadata. -/
theorem c8_absent_key_empty_metadata_witness :
    read_parquet_with_meta stAB tblBare 5 = LoadResult.ok stAB 5 ∧
    getMeta (ConfigMetaPlugin.init stAB 5) 5 = [] :=
  c8_absent_key_empty_metadata stAB tblBare 5 (by decide) (by decide)

/-- C9: starting from the empty registry, after any sequence of operations —
proxy construction, set/update, merge, a wrapped forwarded call, the weakref
cleanup callback, or a parquet load — `_df_id_to_meta` and `_df_id_to_ref`
list exactly the same identities (their key sequences are equal, hence so are
their key sets). -/
theorem c9_registry_keys_aligned (ops : List Op) :
    keysAligned (applyOps Registry.empty ops) :=
  keysAligned_applyOps (by unfold keysAligned; rfl) ops

/-- Witness for C9 on a concrete operation sequence exercising every
operation kind. -/
theorem c9_registry_keys_aligned_witness :
    keysAligned (applyOps Registry.empty
      [Op.construct 3, Op.setMeta 3 [("a", JValue.null)], Op.mergeMeta 3 [4],
       Op.wrappedCall 3 (CallResult.frame 5), Op.gcCleanup 0,
       Op.load (writeParquetPlugin stAB 0 tblW) 9]) :=
  c9_registry_keys_aligned
    [Op.construct 3, Op.setMeta 3 [("a", JValue.null)], Op.mergeMeta 3 [4],
     Op.wrappedCall 3 (CallResult.frame 5), Op.gcCleanup 0,
     Op.load (writeParquetPlugin stAB 0 tblW) 9]

/-- C10: an attribute that exists on the underlying DataFrame but whose value
is the Python `None` is indistinguishable, through the proxy, from a missing
attribute: resolution raises the same `AttributeError` naming the attribute,
because absence is detected with `getattr(self._df, name, None)`. -/
theorem c10_present_none_attribute_error (df : DataFrame) (name : String)
    (h1 : name ∉ pluginAttrs) (h2 : name ≠ "write_parquet")
    (h3 : df.attrs name = some AttrVal.vnone) :
    proxyResolve df name =
      ResolveResult.attrError ("Polars DataFrame has no attribute \x27" ++ name ++ "\x27") := by
  unfold proxyResolve configMetaGetattr
  rw [if_neg h1, if_neg (by simpa using h2), h3]
  rfl

/-- Witness for C10 on a DataFrame whose `"style"` attribute is `None`. -/
theorem c10_present_none_attribute_error_witness :
    proxyResolve dfNoneAttr "style" =
      ResolveResult.attrError
        ("Polars DataFrame has no attribute \x27" ++ "style" ++ "\x27") :=
  c10_present_none_attribute_error dfNoneAttr "style" (by decide) (by decide) (by decide)
